import Mathlib

/-!
Shallow embedding of `src/OIS_Fetcher.py`: a batch job that fetches recent Fed
Funds futures settlement prices, derives an implied annualized Fed Funds rate
and a compounded 1-month OIS-rate proxy from each price point, and writes each
derived value to a DynamoDB table keyed by (metricId, timestamp).

Python floats are embedded as exact rationals (ℚ); the `f"{x:.4f}"` formatting
is modelled as decimal rounding to 4 fraction digits with ties to even, which
is the rounding Python's fixed-point float formatting performs.  DynamoDB
`put_item` itself is not part of the repository; its key-replacing upsert
contract is modelled from the spec where a claim needs it.
-/

namespace OISFetcher

/-- `METRIC_ID_OIS` (line 18), at its default value. -/
def METRIC_ID_OIS : String := "CALCULATED_OIS_1M_RATE"

/-- `METRIC_ID_IMPLIED_FF` (line 19), at its default value. -/
def METRIC_ID_IMPLIED_FF : String := "IMPLIED_FF_RATE"

/-- A row of the fetched DataFrame as `calculate_and_store_rates` consumes it:
a timestamp (already converted to UTC milliseconds, line 88) and the `Close`
price.  `close = none` models a row for which `float(row['Close'])` or the
timestamp conversion raises `KeyError`/`ValueError`/`TypeError` (caught at
line 124), so the row contributes no records. -/
structure PricePoint where
  timestamp_ms : ℤ
  close : Option ℚ
  deriving DecidableEq

/-- A DynamoDB item as built at lines 96-100 and 110-114: `metricId` (S),
`timestamp` (N, the point's epoch milliseconds) and `value` (N, the rate
formatted with `:.4f`). -/
structure MetricRecord where
  metricId : String
  timestamp : ℤ
  value : String
  deriving DecidableEq

/-- Round a rational to the nearest integer, ties to even: the rounding of
Python's fixed-point float formatting. -/
def roundHalfEven (x : ℚ) : ℤ :=
  if x - ⌊x⌋ < 1/2 then ⌊x⌋
  else if 1/2 < x - ⌊x⌋ then ⌊x⌋ + 1
  else if ⌊x⌋ % 2 = 0 then ⌊x⌋ else ⌊x⌋ + 1

/-- The 4 fraction digits of `a` (taken modulo 10000), most significant first. -/
def pad4 (a : ℕ) : List Char :=
  [Nat.digitChar (a / 1000 % 10), Nat.digitChar (a / 100 % 10),
   Nat.digitChar (a / 10 % 10), Nat.digitChar (a % 10)]

/-- Print a signed integer amount of ten-thousandths as sign, integer part,
`'.'` and exactly four fraction digits. -/
def fmt4Int (n : ℤ) : String :=
  String.mk ((if n < 0 then ['-'] else []) ++
    Nat.toDigits 10 (n.natAbs / 10000) ++ '.' :: pad4 (n.natAbs % 10000))

/-- Python's `f"{x:.4f}"` on the embedded rational: round `x · 10⁴` to the
nearest integer (ties to even) and print it with four fraction digits. -/
def fmt4 (x : ℚ) : String :=
  fmt4Int (roundHalfEven (x * 10000))

/-- One iteration of the `for index_date, row in points_to_process_df.iterrows()`
loop of `calculate_and_store_rates` (lines 78-126): the FF item is always
appended; the OIS item only when `1 + daily_rate_decimal > 0` (line 106); a row
whose parsing raises (modelled by `close = none`) is skipped by the
`except ... continue` at lines 124-126 and contributes nothing.  `n_days` is
`30.0` (line 104), so the float power `** n_days` is the integer power `^ 30`
and `360.0 / n_days` is `360 / 30`. -/
def processPoint (p : PricePoint) : List MetricRecord :=
  match p.close with
  | none => []
  | some close_price =>
    let implied_annual_ff_rate_decimal : ℚ := (100 - close_price) / 100
    let implied_ff_rate_to_store_percent := implied_annual_ff_rate_decimal * 100
    let item_ff : MetricRecord :=
      ⟨METRIC_ID_IMPLIED_FF, p.timestamp_ms, fmt4 implied_ff_rate_to_store_percent⟩
    let daily_rate_decimal := implied_annual_ff_rate_decimal / 360
    if 1 + daily_rate_decimal > 0 then
      let compounded_rate_decimal := ((1 + daily_rate_decimal) ^ (30 : ℕ) - 1) * (360 / 30)
      let ois_rate_to_store_percent := compounded_rate_decimal * 100
      [item_ff, ⟨METRIC_ID_OIS, p.timestamp_ms, fmt4 ois_rate_to_store_percent⟩]
    else
      [item_ff]

/-- `items_to_put` after the whole loop (lines 77-126): the per-row records in
row order, FF before OIS for each row. -/
def prepareItems : List PricePoint → List MetricRecord
  | [] => []
  | p :: rest => processPoint p ++ prepareItems rest

/-- `historical_data_df.tail(60)` (line 69): the last 60 rows. -/
def tail60 (l : List PricePoint) : List PricePoint :=
  l.drop (l.length - 60)

/-- The DynamoDB write phase (lines 128-137): one `try` wraps the whole
`for req in items_to_put` loop, so the loop stops at the first `put_item` call
that raises.  `raises r = true` means the `put_item` call for record `r`
raises.  Returns the records for which `put_item` was invoked (in order,
including the raising one) and whether an error was caught and logged. -/
def storeItems (records : List MetricRecord) (raises : MetricRecord → Bool) :
    List MetricRecord × Bool :=
  match records with
  | [] => ([], false)
  | r :: rest =>
    if raises r then ([r], true)
    else
      let res := storeItems rest raises
      (r :: res.1, res.2)

/-- `calculate_and_store_rates` (lines 58-139): the guard at line 63
(`df is None or df.empty`), `tail(60)` at line 69, the emptiness guard at
line 71, the preparation loop, the `if items_to_put:` guard at line 128 and
the write loop.  Returns the `put_item` invocations (in order) and whether a
storage error was logged. -/
def calculate_and_store_rates (df : Option (List PricePoint))
    (raises : MetricRecord → Bool) : List MetricRecord × Bool :=
  match df with
  | none => ([], false)
  | some points =>
    if points = [] then ([], false)
    else
      let points_to_process := tail60 points
      if points_to_process = [] then ([], false)
      else
        let items_to_put := prepareItems points_to_process
        if items_to_put = [] then ([], false)
        else storeItems items_to_put raises

/-- `fetch_fed_funds_futures_data` (lines 23-56) on the provider's outcome:
`resp = none` models a raised exception (caught at line 53, `None` returned);
an empty history returns `None` at lines 43-45; otherwise the data is
returned as-is. -/
def fetch_fed_funds_futures_data (resp : Option (List PricePoint)) :
    Option (List PricePoint) :=
  match resp with
  | none => none
  | some hist => if hist = [] then none else some hist

/-- The `__main__` block (lines 142-147): fetch, and only when the result is
not `None`, calculate and store. -/
def runScript (resp : Option (List PricePoint)) (raises : MetricRecord → Bool) :
    List MetricRecord × Bool :=
  match fetch_fed_funds_futures_data resp with
  | none => ([], false)
  | some data => calculate_and_store_rates (some data) raises

/-- The DynamoDB table key of a record: the table is keyed by
(metricId, timestamp). -/
def recordKey (r : MetricRecord) : String × ℤ := (r.metricId, r.timestamp)

/-- Modelled from the spec: the DynamoDB table (not part of this repository)
is a key-value store and `put_item` is a "per-record upsert ... keyed by
(metricId, timestamp)" — it replaces any existing item with the same key. -/
def putItem (store : List MetricRecord) (r : MetricRecord) : List MetricRecord :=
  r :: store.filter (fun s => !(decide (recordKey s = recordKey r)))

/-- Stored state after a sequence of `put_item` calls, in order. -/
def writeSeq (store : List MetricRecord) (records : List MetricRecord) :
    List MetricRecord :=
  records.foldl putItem store

/-- Number of stored items with the given (metricId, timestamp) key. -/
def countKey (store : List MetricRecord) (k : String × ℤ) : ℕ :=
  (store.filter (fun s => decide (recordKey s = k))).length

/-- Number of prepared records carrying the given metricId. -/
def countMetric (items : List MetricRecord) (m : String) : ℕ :=
  (items.filter (fun r => decide (r.metricId = m))).length

/-- `true` iff the string ends in a decimal point followed by exactly four
decimal digits. -/
def hasFourFracDigits (s : String) : Bool :=
  match s.data.reverse with
  | d1 :: d2 :: d3 :: d4 :: p :: _ =>
      d1.isDigit && d2.isDigit && d3.isDigit && d4.isDigit && (p = '.')
  | _ => false

/-! ### Helper lemmas -/

theorem roundHalfEven_eq_of_le (x : ℚ) (n : ℤ) (h1 : (n : ℚ) ≤ x)
    (h2 : x < (n : ℚ) + 1/2) : roundHalfEven x = n := by
  have hf : ⌊x⌋ = n := by
    rw [Int.floor_eq_iff]
    exact ⟨h1, by linarith⟩
  unfold roundHalfEven
  rw [hf, if_pos (by linarith)]

theorem roundHalfEven_eq_of_gt (x : ℚ) (n : ℤ) (h1 : (n : ℚ) - 1/2 < x)
    (h2 : x < (n : ℚ)) : roundHalfEven x = n := by
  have hf : ⌊x⌋ = n - 1 := by
    rw [Int.floor_eq_iff]
    constructor
    · push_cast; linarith
    · push_cast; linarith
  unfold roundHalfEven
  rw [hf, if_neg (by push_cast; linarith), if_pos (by push_cast; linarith)]
  omega

theorem processPoint_of_pos (ts : ℤ) (c : ℚ) (hpos : 1 + ((100 - c) / 100) / 360 > 0) :
    processPoint ⟨ts, some c⟩ =
      [⟨METRIC_ID_IMPLIED_FF, ts, fmt4 ((100 - c) / 100 * 100)⟩,
       ⟨METRIC_ID_OIS, ts,
         fmt4 (((1 + ((100 - c) / 100) / 360) ^ (30 : ℕ) - 1) * (360 / 30) * 100)⟩] := by
  unfold processPoint
  dsimp only
  rw [if_pos hpos]

theorem processPoint_of_nonpos (ts : ℤ) (c : ℚ)
    (hnp : 1 + ((100 - c) / 100) / 360 ≤ 0) :
    processPoint ⟨ts, some c⟩ =
      [⟨METRIC_ID_IMPLIED_FF, ts, fmt4 ((100 - c) / 100 * 100)⟩] := by
  unfold processPoint
  dsimp only
  rw [if_neg (not_lt.mpr hnp)]

theorem processPoint_none (ts : ℤ) : processPoint ⟨ts, none⟩ = [] := rfl

theorem prepareItems_append (l1 l2 : List PricePoint) :
    prepareItems (l1 ++ l2) = prepareItems l1 ++ prepareItems l2 := by
  induction l1 with
  | nil => rfl
  | cons p rest ih => simp [prepareItems, ih]

theorem mem_prepareItems {r : MetricRecord} {pts : List PricePoint} :
    r ∈ prepareItems pts ↔ ∃ p ∈ pts, r ∈ processPoint p := by
  induction pts with
  | nil => simp [prepareItems]
  | cons p rest ih => simp [prepareItems, ih, List.mem_append]

theorem storeItems_noraise (records : List MetricRecord) :
    storeItems records (fun _ => false) = (records, false) := by
  induction records with
  | nil => rfl
  | cons r rest ih => simp [storeItems, ih]

theorem storeItems_fst_subset (records : List MetricRecord)
    (raises : MetricRecord → Bool) :
    (storeItems records raises).1 ⊆ records := by
  induction records with
  | nil => simp [storeItems]
  | cons r rest ih =>
    intro x hx
    by_cases h : raises r
    · simp only [storeItems, if_pos h] at hx
      simp only [List.mem_singleton] at hx
      simp [hx]
    · simp only [storeItems, if_neg h] at hx
      rcases List.mem_cons.mp hx with h1 | h2
      · simp [h1]
      · exact List.mem_cons_of_mem _ (ih h2)

theorem tail60_eq_self {l : List PricePoint} (h : l.length ≤ 60) :
    tail60 l = l := by
  unfold tail60
  rw [Nat.sub_eq_zero_of_le h, List.drop_zero]

theorem tail60_append {l1 l2 : List PricePoint} (h : l2.length = 60) :
    tail60 (l1 ++ l2) = l2 := by
  unfold tail60
  have hlen : (l1 ++ l2).length - 60 = l1.length := by
    rw [List.length_append, h]
    omega
  rw [hlen, List.drop_left]

theorem tail60_length_le (l : List PricePoint) : (tail60 l).length ≤ 60 := by
  unfold tail60
  rw [List.length_drop]
  omega

theorem processPoint_length_le (p : PricePoint) : (processPoint p).length ≤ 2 := by
  unfold processPoint
  match p with
  | ⟨ts, none⟩ => simp
  | ⟨ts, some c⟩ =>
    dsimp only
    split <;> simp

theorem prepareItems_length_le (pts : List PricePoint) :
    (prepareItems pts).length ≤ 2 * pts.length := by
  induction pts with
  | nil => simp [prepareItems]
  | cons p rest ih =>
    have := processPoint_length_le p
    simp only [prepareItems, List.length_append, List.length_cons]
    omega

theorem countMetric_processPoint_le (p : PricePoint) (m : String) :
    countMetric (processPoint p) m ≤ 1 := by
  unfold countMetric processPoint
  match p with
  | ⟨ts, none⟩ => simp
  | ⟨ts, some c⟩ =>
    dsimp only
    have hne : METRIC_ID_IMPLIED_FF ≠ METRIC_ID_OIS := by decide
    split
    · by_cases hm : METRIC_ID_IMPLIED_FF = m
      · have : ¬ (METRIC_ID_OIS = m) := fun hc => hne (hm.trans hc.symm)
        simp [List.filter, hm, this]
      · by_cases ho : METRIC_ID_OIS = m <;> simp [List.filter, hm, ho]
    · by_cases hm : METRIC_ID_IMPLIED_FF = m <;> simp [List.filter, hm]

theorem countMetric_append (l1 l2 : List MetricRecord) (m : String) :
    countMetric (l1 ++ l2) m = countMetric l1 m + countMetric l2 m := by
  unfold countMetric
  rw [List.filter_append, List.length_append]

theorem countMetric_prepareItems_le (pts : List PricePoint) (m : String) :
    countMetric (prepareItems pts) m ≤ pts.length := by
  induction pts with
  | nil => simp [prepareItems, countMetric]
  | cons p rest ih =>
    have := countMetric_processPoint_le p m
    rw [show prepareItems (p :: rest) = processPoint p ++ prepareItems rest from rfl,
      countMetric_append]
    simp only [List.length_cons]
    omega

theorem digitChar_isDigit {m : ℕ} (h : m < 10) :
    (Nat.digitChar m).isDigit = true := by
  interval_cases m <;> rfl

theorem hasFourFracDigits_fmt4Int (n : ℤ) :
    hasFourFracDigits (fmt4Int n) = true := by
  unfold fmt4Int hasFourFracDigits pad4
  have h10 : (0:ℕ) < 10 := by norm_num
  simp only [List.reverse_append, List.reverse_cons, List.reverse_nil, List.nil_append,
    List.cons_append, List.append_assoc]
  simp [digitChar_isDigit (Nat.mod_lt _ h10)]

theorem hasFourFracDigits_fmt4 (x : ℚ) : hasFourFracDigits (fmt4 x) = true :=
  hasFourFracDigits_fmt4Int _

theorem countKey_putItem_self (s : List MetricRecord) (r : MetricRecord) :
    countKey (putItem s r) (recordKey r) = 1 := by
  unfold countKey putItem
  rw [List.filter_cons_of_pos (by simp), List.filter_filter]
  have hemp :
      List.filter (fun a => decide (recordKey a = recordKey r) &&
        !decide (recordKey a = recordKey r)) s = [] := by
    rw [List.filter_eq_nil_iff.mpr]
    intro a ha
    simp [Bool.and_not_self]
  rw [hemp]
  rfl

theorem countKey_putItem_other (s : List MetricRecord) (r : MetricRecord)
    (k : String × ℤ) (h : recordKey r ≠ k) :
    countKey (putItem s r) k = countKey s k := by
  unfold countKey putItem
  rw [List.filter_cons_of_neg (by simp [h]), List.filter_filter]
  congr 1
  apply List.filter_congr
  intro a ha
  by_cases hk : recordKey a = k
  · have hne : recordKey a ≠ recordKey r := fun hc => h (hc.symm.trans hk)
    have hkr : ¬ k = recordKey r := fun hc => h hc.symm
    simp [hk, hne, hkr]
  · simp [hk]

theorem countKey_writeSeq (recs : List MetricRecord) (store : List MetricRecord)
    (k : String × ℤ) :
    countKey (writeSeq store recs) k =
      if ∃ r ∈ recs, recordKey r = k then 1 else countKey store k := by
  induction recs generalizing store with
  | nil => simp [writeSeq]
  | cons r rest ih =>
    have hstep : writeSeq store (r :: rest) = writeSeq (putItem store r) rest := rfl
    rw [hstep, ih]
    by_cases hrest : ∃ x ∈ rest, recordKey x = k
    · obtain ⟨x, hx, hxk⟩ := hrest
      rw [if_pos ⟨x, hx, hxk⟩, if_pos ⟨x, List.mem_cons_of_mem _ hx, hxk⟩]
    · rw [if_neg hrest]
      by_cases hr : recordKey r = k
      · rw [if_pos ⟨r, List.mem_cons_self r rest, hr⟩]
        rw [← hr, countKey_putItem_self]
      · rw [if_neg (by
          rintro ⟨x, hx, hxk⟩
          rcases List.mem_cons.mp hx with h1 | h2
          · exact hr (h1 ▸ hxk)
          · exact hrest ⟨x, h2, hxk⟩)]
        exact countKey_putItem_other store r k hr

theorem fmt4_ff95 : fmt4 ((100 - (95:ℚ)) / 100 * 100) = "5.0000" := by
  unfold fmt4
  rw [roundHalfEven_eq_of_le _ 50000 (by norm_num) (by norm_num)]
  decide

theorem fmt4_ois95 :
    fmt4 (((1 + ((100 - (95:ℚ)) / 100) / 360) ^ (30 : ℕ) - 1) * (360 / 30) * 100) =
      "5.0101" := by
  unfold fmt4
  rw [roundHalfEven_eq_of_gt _ 50101 (by norm_num) (by norm_num)]
  decide

theorem tail60_subset (l : List PricePoint) : tail60 l ⊆ l :=
  List.drop_subset _ _

theorem processPoint_mem_props (p : PricePoint) (r : MetricRecord)
    (h : r ∈ processPoint p) :
    r.timestamp = p.timestamp_ms ∧
      (r.metricId = METRIC_ID_IMPLIED_FF ∨ r.metricId = METRIC_ID_OIS) ∧
      hasFourFracDigits r.value = true := by
  rcases p with ⟨ts, cl⟩
  match cl with
  | none => simp [processPoint] at h
  | some c =>
    by_cases hpos : 1 + ((100 - c) / 100) / 360 > 0
    · rw [processPoint_of_pos ts c hpos] at h
      simp only [List.mem_cons, List.not_mem_nil, or_false] at h
      rcases h with rfl | rfl
      · exact ⟨rfl, Or.inl rfl, hasFourFracDigits_fmt4 _⟩
      · exact ⟨rfl, Or.inr rfl, hasFourFracDigits_fmt4 _⟩
    · rw [processPoint_of_nonpos ts c (not_lt.mp hpos)] at h
      simp only [List.mem_singleton] at h
      subst h
      exact ⟨rfl, Or.inl rfl, hasFourFracDigits_fmt4 _⟩

theorem calc_fst_subset (l : List PricePoint) (raises : MetricRecord → Bool) :
    (calculate_and_store_rates (some l) raises).1 ⊆ prepareItems (tail60 l) := by
  unfold calculate_and_store_rates
  dsimp only
  by_cases h1 : l = []
  · rw [if_pos h1]
    simp
  · rw [if_neg h1]
    by_cases h2 : tail60 l = []
    · rw [if_pos h2]
      simp
    · rw [if_neg h2]
      by_cases h3 : prepareItems (tail60 l) = []
      · rw [if_pos h3]
        simp
      · rw [if_neg h3]
        exact storeItems_fst_subset _ _

theorem calc_eval_noraise (l : List PricePoint) (hl : l ≠ []) (h60 : l.length ≤ 60)
    (hne : prepareItems l ≠ []) :
    calculate_and_store_rates (some l) (fun _ => false) = (prepareItems l, false) := by
  unfold calculate_and_store_rates
  dsimp only
  rw [if_neg hl, tail60_eq_self h60, if_neg hl, if_neg hne, storeItems_noraise]

/-! ### Claims -/

/-- C1, counterexample: with two prepared records and the first `put_item`
raising, the write for the second record is not attempted (the single `try`
at lines 129-137 wraps the whole loop), refuting the claim that remaining
writes are still attempted after a failure. -/
theorem claim1_cex :
    (storeItems [⟨"IMPLIED_FF_RATE", 0, "1.0000"⟩, ⟨"CALCULATED_OIS_1M_RATE", 0, "2.0000"⟩]
        (fun r => decide (r.metricId = "IMPLIED_FF_RATE"))).2 = true ∧
    (⟨"CALCULATED_OIS_1M_RATE", 0, "2.0000"⟩ : MetricRecord) ∉
      (storeItems [⟨"IMPLIED_FF_RATE", 0, "1.0000"⟩, ⟨"CALCULATED_OIS_1M_RATE", 0, "2.0000"⟩]
        (fun r => decide (r.metricId = "IMPLIED_FF_RATE"))).1 := by
  constructor
  · rfl
  · decide

/-- C1, amended: a failure of a single store write is logged, but it aborts
the remaining writes of the run: `put_item` is invoked exactly for the
records up to and including the first failing one, in order, and the error
flag is set iff some write raises. -/
theorem claim1_store_loop_stops_at_first_failure (records : List MetricRecord)
    (raises : MetricRecord → Bool) :
    storeItems records raises =
      (records.take (records.findIdx raises + 1), records.any raises) := by
  induction records with
  | nil => rfl
  | cons r rest ih =>
    by_cases hr : raises r
    · simp [storeItems, hr, List.findIdx_cons, List.any_cons, List.take_succ_cons]
    · simp [storeItems, hr, List.findIdx_cons, List.any_cons, List.take_succ_cons, ih]

/-- C2: for every successfully parsed PricePoint with close price `c`, the
FF record with value ((100 − c)/100) × 100 is always produced, and the OIS
record with value ((1 + d)^30 − 1) × (360/30) × 100, d = ((100 − c)/100)/360,
is produced exactly when 1 + d > 0; when 1 + d ≤ 0 only the FF record is
produced. -/
theorem claim2_ois_iff_positive_base (p : PricePoint) (c : ℚ)
    (h : p.close = some c) :
    (1 + ((100 - c) / 100) / 360 > 0 →
      processPoint p =
        [⟨METRIC_ID_IMPLIED_FF, p.timestamp_ms, fmt4 ((100 - c) / 100 * 100)⟩,
         ⟨METRIC_ID_OIS, p.timestamp_ms,
           fmt4 (((1 + ((100 - c) / 100) / 360) ^ (30 : ℕ) - 1) * (360 / 30) * 100)⟩]) ∧
    (1 + ((100 - c) / 100) / 360 ≤ 0 →
      processPoint p =
        [⟨METRIC_ID_IMPLIED_FF, p.timestamp_ms, fmt4 ((100 - c) / 100 * 100)⟩]) := by
  rcases p with ⟨ts, cl⟩
  cases h
  exact ⟨fun hpos => processPoint_of_pos ts c hpos,
    fun hnp => processPoint_of_nonpos ts c hnp⟩

/-- C2, witness at close = 95. -/
theorem claim2_witness :
    (1 + ((100 - (95:ℚ)) / 100) / 360 > 0 →
      processPoint ⟨0, some 95⟩ =
        [⟨METRIC_ID_IMPLIED_FF, (0:ℤ), fmt4 ((100 - (95:ℚ)) / 100 * 100)⟩,
         ⟨METRIC_ID_OIS, (0:ℤ),
           fmt4 (((1 + ((100 - (95:ℚ)) / 100) / 360) ^ (30 : ℕ) - 1) * (360 / 30) * 100)⟩]) ∧
    (1 + ((100 - (95:ℚ)) / 100) / 360 ≤ 0 →
      processPoint ⟨0, some 95⟩ =
        [⟨METRIC_ID_IMPLIED_FF, (0:ℤ), fmt4 ((100 - (95:ℚ)) / 100 * 100)⟩]) :=
  claim2_ois_iff_positive_base ⟨0, some 95⟩ 95 rfl

/-- C3, counterexample: at close = 460 (the spec's bound 100 + 360), the
compounding base 1 + dailyRate equals 0.99 > 0 and the OIS record is
produced, refuting the claim that every close ≥ 460 makes the base
non-positive and skips the OIS record. -/
theorem claim3_cex :
    ¬(1 + ((100 - (460:ℚ)) / 100) / 360 ≤ 0) ∧
    (processPoint ⟨0, some 460⟩).map (fun r => r.metricId) =
      [METRIC_ID_IMPLIED_FF, METRIC_ID_OIS] := by
  constructor
  · norm_num
  · rw [processPoint_of_pos 0 460 (by norm_num)]
    rfl

/-- C3, amended: the compounding base 1 + dailyRate is non-positive exactly
from close ≥ 36100 (= 100 + 360·100) on; for such a close the OIS record is
skipped while the FF record is still produced. -/
theorem claim3_ois_skipped_from_36100 (p : PricePoint) (c : ℚ)
    (h : p.close = some c) (hc : 36100 ≤ c) :
    1 + ((100 - c) / 100) / 360 ≤ 0 ∧
    processPoint p =
      [⟨METRIC_ID_IMPLIED_FF, p.timestamp_ms, fmt4 ((100 - c) / 100 * 100)⟩] := by
  have hnp : 1 + ((100 - c) / 100) / 360 ≤ 0 := by
    have hdiv : ((100 - c) / 100) / 360 = (100 - c) / 36000 := by ring
    rw [hdiv]
    have : (100 - c) / 36000 ≤ -1 := by
      rw [div_le_iff₀ (by norm_num : (0:ℚ) < 36000)]
      linarith
    linarith
  refine ⟨hnp, ?_⟩
  rcases p with ⟨ts, cl⟩
  cases h
  exact processPoint_of_nonpos ts c hnp

/-- C3, witness at close = 36100. -/
theorem claim3_witness :
    1 + ((100 - (36100:ℚ)) / 100) / 360 ≤ 0 ∧
    processPoint ⟨0, some 36100⟩ =
      [⟨METRIC_ID_IMPLIED_FF, (0:ℤ), fmt4 ((100 - (36100:ℚ)) / 100 * 100)⟩] :=
  claim3_ois_skipped_from_36100 ⟨0, some 36100⟩ 36100 rfl (by norm_num)

/-- C4, counterexample: for close = 95 the OIS record's formatted value is
"5.0101", not the "5.1028" the claim states. -/
theorem claim4_cex :
    (processPoint ⟨0, some 95⟩).map (fun r => r.value) = ["5.0000", "5.0101"] ∧
    ("5.0101" : String) ≠ "5.1028" := by
  constructor
  · rw [processPoint_of_pos 0 95 (by norm_num)]
    simp only [List.map_cons, List.map_nil]
    rw [fmt4_ff95, fmt4_ois95]
  · decide

/-- C4, amended: for close = 95 the implied annual rate is 0.05 = 1/20, the
FF record's value is "5.0000", and the OIS record's value
((1+0.05/360)^30 − 1) × 12 × 100 formats to "5.0101". -/
theorem claim4_close95_values :
    (100 - (95:ℚ)) / 100 = 1/20 ∧
    processPoint ⟨0, some 95⟩ =
      [⟨METRIC_ID_IMPLIED_FF, 0, "5.0000"⟩, ⟨METRIC_ID_OIS, 0, "5.0101"⟩] := by
  constructor
  · norm_num
  · rw [processPoint_of_pos 0 95 (by norm_num), fmt4_ff95, fmt4_ois95]

/-- C5: every record the run passes to `put_item` originates from a fetched
PricePoint, carries that point's timestamp, has one of the two configured
metricIds, and its value is a decimal string with exactly 4 fraction
digits. -/
theorem claim5_record_invariants (l : List PricePoint) (raises : MetricRecord → Bool)
    (r : MetricRecord) (hr : r ∈ (calculate_and_store_rates (some l) raises).1) :
    ∃ p, p ∈ l ∧ r ∈ processPoint p ∧ r.timestamp = p.timestamp_ms ∧
      (r.metricId = METRIC_ID_IMPLIED_FF ∨ r.metricId = METRIC_ID_OIS) ∧
      hasFourFracDigits r.value = true := by
  have h1 : r ∈ prepareItems (tail60 l) := calc_fst_subset l raises hr
  obtain ⟨p, hp, hrp⟩ := mem_prepareItems.mp h1
  obtain ⟨hts, hid, hval⟩ := processPoint_mem_props p r hrp
  exact ⟨p, tail60_subset l hp, hrp, hts, hid, hval⟩

/-- C5, witness: the FF record of a single point with close = 100. -/
theorem claim5_witness :
    ∃ p, p ∈ [(⟨0, some 100⟩ : PricePoint)] ∧
      (⟨METRIC_ID_IMPLIED_FF, (0:ℤ), fmt4 ((100 - (100:ℚ)) / 100 * 100)⟩ : MetricRecord) ∈
        processPoint p ∧
      (⟨METRIC_ID_IMPLIED_FF, (0:ℤ), fmt4 ((100 - (100:ℚ)) / 100 * 100)⟩ : MetricRecord).timestamp
        = p.timestamp_ms ∧
      ((⟨METRIC_ID_IMPLIED_FF, (0:ℤ), fmt4 ((100 - (100:ℚ)) / 100 * 100)⟩ : MetricRecord).metricId
          = METRIC_ID_IMPLIED_FF ∨
        (⟨METRIC_ID_IMPLIED_FF, (0:ℤ), fmt4 ((100 - (100:ℚ)) / 100 * 100)⟩ : MetricRecord).metricId
          = METRIC_ID_OIS) ∧
      hasFourFracDigits
        (⟨METRIC_ID_IMPLIED_FF, (0:ℤ), fmt4 ((100 - (100:ℚ)) / 100 * 100)⟩ : MetricRecord).value
        = true :=
  claim5_record_invariants [⟨0, some 100⟩] (fun _ => false) _ (by
    rw [calc_eval_noraise [⟨0, some 100⟩] (by simp) (by simp)
      (by simp [prepareItems, processPoint_of_pos 0 (100:ℚ) (by norm_num)])]
    simp [prepareItems, processPoint_of_pos 0 (100:ℚ) (by norm_num)])

/-- C6: when the fetch yields no data (provider failure or empty history),
the run writes zero records and terminates without error. -/
theorem claim6_empty_fetch (resp : Option (List PricePoint))
    (raises : MetricRecord → Bool) (h : resp = none ∨ resp = some []) :
    runScript resp raises = ([], false) ∧
    calculate_and_store_rates (fetch_fed_funds_futures_data resp) raises = ([], false) := by
  rcases h with rfl | rfl
  · exact ⟨rfl, rfl⟩
  · exact ⟨rfl, rfl⟩

/-- C6, witness at an empty fetched history. -/
theorem claim6_witness :
    runScript (some []) (fun _ => false) = ([], false) ∧
    calculate_and_store_rates (fetch_fed_funds_futures_data (some []))
      (fun _ => false) = ([], false) :=
  claim6_empty_fetch (some []) (fun _ => false) (Or.inr rfl)

/-- C7: a point whose parsing fails contributes nothing, and every other
point of the same batch is still processed: the run writes exactly the
records of the other points, in order, with no error. -/
theorem claim7_bad_point_skipped (l1 l2 : List PricePoint) (bad : PricePoint)
    (hbad : bad.close = none) (hlen : (l1 ++ bad :: l2).length ≤ 60) :
    calculate_and_store_rates (some (l1 ++ bad :: l2)) (fun _ => false) =
      (prepareItems l1 ++ prepareItems l2, false) := by
  have hpb : processPoint bad = [] := by
    rcases bad with ⟨ts, cl⟩
    cases hbad
    rfl
  have hprep : prepareItems (l1 ++ bad :: l2) = prepareItems l1 ++ prepareItems l2 := by
    rw [prepareItems_append,
      show prepareItems (bad :: l2) = processPoint bad ++ prepareItems l2 from rfl, hpb,
      List.nil_append]
  have hl : l1 ++ bad :: l2 ≠ [] := by simp
  unfold calculate_and_store_rates
  dsimp only
  rw [if_neg hl, tail60_eq_self hlen, if_neg hl, hprep]
  by_cases hitems : prepareItems l1 ++ prepareItems l2 = []
  · rw [if_pos hitems, hitems]
  · rw [if_neg hitems, storeItems_noraise]

/-- C7, witness: a batch holding only one unparsable point. -/
theorem claim7_witness :
    calculate_and_store_rates (some ([] ++ (⟨0, none⟩ : PricePoint) :: []))
      (fun _ => false) = (prepareItems [] ++ prepareItems [], false) :=
  claim7_bad_point_skipped [] [] ⟨0, none⟩ rfl (by simp)

/-- C8: writing the records derived from one PricePoint twice leaves exactly
one stored item per (metricId, timestamp) key — the modelled `put_item`
upsert is idempotent on the key. -/
theorem claim8_put_idempotent (store : List MetricRecord) (p : PricePoint)
    (r : MetricRecord) (hr : r ∈ processPoint p) :
    countKey (writeSeq (writeSeq store (processPoint p)) (processPoint p))
      (recordKey r) = 1 := by
  rw [countKey_writeSeq, if_pos ⟨r, hr, rfl⟩]

/-- C8, witness: the FF record of close = 95 written twice into an empty
store. -/
theorem claim8_witness :
    countKey
      (writeSeq (writeSeq [] (processPoint ⟨0, some 95⟩)) (processPoint ⟨0, some 95⟩))
      (recordKey ⟨METRIC_ID_IMPLIED_FF, (0:ℤ), fmt4 ((100 - (95:ℚ)) / 100 * 100)⟩) = 1 :=
  claim8_put_idempotent [] ⟨0, some 95⟩ _ (by
    rw [processPoint_of_pos 0 (95:ℚ) (by norm_num)]
    simp)

/-- C9: only the last 60 fetched rows are processed (rows before them change
nothing), and the prepared records number at most 60 per metric and at most
120 in total. -/
theorem claim9_last60_window (l1 l2 l : List PricePoint)
    (raises : MetricRecord → Bool) (h : l2.length = 60) :
    calculate_and_store_rates (some (l1 ++ l2)) raises =
      calculate_and_store_rates (some l2) raises ∧
    countMetric (prepareItems (tail60 l)) METRIC_ID_IMPLIED_FF ≤ 60 ∧
    countMetric (prepareItems (tail60 l)) METRIC_ID_OIS ≤ 60 ∧
    (prepareItems (tail60 l)).length ≤ 120 := by
  refine ⟨?_, ?_, ?_, ?_⟩
  · have h2ne : l2 ≠ [] := by
      intro hc
      rw [hc] at h
      simp at h
    have h12 : l1 ++ l2 ≠ [] := by simp [h2ne]
    unfold calculate_and_store_rates
    dsimp only
    rw [if_neg h12, if_neg h2ne, tail60_append h, tail60_eq_self h.le]
  · exact le_trans (countMetric_prepareItems_le _ _) (tail60_length_le l)
  · exact le_trans (countMetric_prepareItems_le _ _) (tail60_length_le l)
  · have h1 := prepareItems_length_le (tail60 l)
    have h2 := tail60_length_le l
    omega

/-- C9, witness: one extra row in front of 60 rows. -/
theorem claim9_witness :
    calculate_and_store_rates
        (some ([(⟨0, none⟩ : PricePoint)] ++ List.replicate 60 (⟨0, none⟩ : PricePoint)))
        (fun _ => false) =
      calculate_and_store_rates (some (List.replicate 60 (⟨0, none⟩ : PricePoint)))
        (fun _ => false) ∧
    countMetric (prepareItems (tail60 [])) METRIC_ID_IMPLIED_FF ≤ 60 ∧
    countMetric (prepareItems (tail60 [])) METRIC_ID_OIS ≤ 60 ∧
    (prepareItems (tail60 [])).length ≤ 120 :=
  claim9_last60_window [⟨0, none⟩] (List.replicate 60 ⟨0, none⟩) []
    (fun _ => false) (by simp)

/-- C10: records are prepared in input order — the records of a point appear
between those of the points before and after it, the point's FF record comes
first, any further record of the point is its OIS record, and a failure-free
write loop stores the prepared list unchanged, in order. -/
theorem claim10_order_preserved (l1 l2 : List PricePoint) (p : PricePoint)
    (c : ℚ) (h : p.close = some c) :
    prepareItems (l1 ++ p :: l2) =
      prepareItems l1 ++ processPoint p ++ prepareItems l2 ∧
    (processPoint p).head? =
      some ⟨METRIC_ID_IMPLIED_FF, p.timestamp_ms, fmt4 ((100 - c) / 100 * 100)⟩ ∧
    (∀ r ∈ (processPoint p).tail, r.metricId = METRIC_ID_OIS) ∧
    (∀ items : List MetricRecord, storeItems items (fun _ => false) = (items, false)) := by
  refine ⟨?_, ?_, ?_, fun items => storeItems_noraise items⟩
  · rw [prepareItems_append,
      show prepareItems (p :: l2) = processPoint p ++ prepareItems l2 from rfl,
      List.append_assoc]
  · rcases p with ⟨ts, cl⟩
    cases h
    by_cases hpos : 1 + ((100 - c) / 100) / 360 > 0
    · rw [processPoint_of_pos ts c hpos]
      rfl
    · rw [processPoint_of_nonpos ts c (not_lt.mp hpos)]
      rfl
  · rcases p with ⟨ts, cl⟩
    cases h
    by_cases hpos : 1 + ((100 - c) / 100) / 360 > 0
    · rw [processPoint_of_pos ts c hpos]
      intro r hrmem
      simp only [List.tail_cons, List.mem_singleton] at hrmem
      subst hrmem
      rfl
    · rw [processPoint_of_nonpos ts c (not_lt.mp hpos)]
      intro r hrmem
      simp at hrmem

/-- C10, witness at a single point with close = 100. -/
theorem claim10_witness :
    prepareItems ([] ++ (⟨0, some 100⟩ : PricePoint) :: []) =
      prepareItems [] ++ processPoint ⟨0, some 100⟩ ++ prepareItems [] ∧
    (processPoint (⟨0, some 100⟩ : PricePoint)).head? =
      some ⟨METRIC_ID_IMPLIED_FF, (0:ℤ), fmt4 ((100 - (100:ℚ)) / 100 * 100)⟩ ∧
    (∀ r ∈ (processPoint (⟨0, some 100⟩ : PricePoint)).tail, r.metricId = METRIC_ID_OIS) ∧
    (∀ items : List MetricRecord, storeItems items (fun _ => false) = (items, false)) :=
  claim10_order_preserved [] [] ⟨0, some 100⟩ 100 rfl

end OISFetcher
